import Mathlib

/-!
Verification of the differentially-private gradient-boosted-trees engine
(`model.py`): a shallow embedding of the exponential-mechanism split
selector, the DFS tree builder, leaf post-processing (clip / Laplace noise /
shrink), ensemble prediction and the training loop's accept/reject logic,
together with theorems settling the frozen claims about them.

Modelling conventions:
* Machine floats are modelled by exact rationals (`ℚ`).  Claims that hinge on
  control flow, list manipulation and comparisons are unaffected by this;
  float-only failure modes (overflow raising `FloatingPointError`) are made
  explicit through `Option` where the source catches them.
* The numeric primitives that the spec lists as external collaborators
  (exponential, square root, uniform / Laplace sampling, train/test
  splitting) are passed in as explicit function parameters, mirroring the
  spec's "external numeric primitives" boundary.  `np.random`'s global
  stream is modelled by explicit counters threaded through the code; the
  `np.random.seed(0)` reset inside `AddLaplacianNoise` is modelled exactly.
* `None` results of fallible code (uncaught exceptions) are `Option.none`.
* Python's `sorted` is a stable sort; a stable sort's output is uniquely
  determined by the comparison key and input order, so it is embedded as a
  stable insertion sort.
* The embedding covers the default configuration paths exercised by the
  claims: DFS growth (`use_bfs = False`, `max_leaves = None`) and
  `use_3_trees = False`; the retained per-node training subsets that exist
  only to serve the 3-node combination phase are therefore omitted from the
  node type.
-/

/-- A split candidate handed to `ExponentialMechanism`: the feature `index`,
the split `value` and the (already privacy-scaled) utility `gain`, mirroring
the `prob` dictionaries built in `FindBestSplit`. -/
structure Candidate where
  index : ℕ
  value : ℚ
  gain : ℚ
  deriving DecidableEq, Repr

/-- Modelled from the spec: the exponential function is an external numeric
primitive (spec section 2 lists "exponential/logarithm" among the external
numeric primitives).  `np.exp` under `np.errstate(all='raise')` raises
`FloatingPointError` outside the exponent range of IEEE doubles (overflow
above about 709.78, underflow below about -745.13); that failure is `none`.
Inside the range it is modelled by a strictly positive, strictly monotone
rational stand-in with value 1 at 0.  The theorems below either quantify
over an arbitrary `expF : ℚ → Option ℚ` or, for concrete evaluation, use
this stand-in; none of their conclusions depends on the stand-in's exact
values. -/
def expModel (x : ℚ) : Option ℚ :=
  if 709 < x ∨ x < -745 then none
  else some (if 0 ≤ x then 1 + x else 1 / (1 - x))

/-- Exponentials of all gains, in order; `none` as soon as one of them
raises.  (The generator inside `np.sum(np.exp(prob['gain']) for prob in
probabilities)` computes them one by one and the first failure aborts the
whole `try` block.) -/
def expGains (expF : ℚ → Option ℚ) : List Candidate → Option (List ℚ)
  | [] => some []
  | c :: rest =>
      match expF c.gain, expGains expF rest with
      | some v, some vs => some (v :: vs)
      | _, _ => none

/-- First tier of `ExponentialMechanism`: the direct softmax denominator
`np.sum(np.exp(prob['gain']) for prob in probabilities)`.  If any
exponential overflows, the whole `try` block fails (`none`) and control
passes to the `except FloatingPointError` fallback. -/
def expSumT1 (expF : ℚ → Option ℚ) (cands : List Candidate) : Option ℚ :=
  (expGains expF cands).map List.sum

/-- First-tier probabilities: `exp(gain_i) / Σ exp(gain_j)`, with probability
forced to 0 when `gain_i == 0` (the source's "e^0 is 1, so checking for
that" branch).  When `expSumT1` succeeds every `expF c.gain` is `some`, so
the `getD 0` default is never taken. -/
def tier1Probs (expF : ℚ → Option ℚ) (cands : List Candidate) :
    Option (List (Candidate × ℚ)) :=
  match expSumT1 expF cands with
  | none => none
  | some s =>
      some (cands.map (fun c =>
        (c, if c.gain = 0 then 0 else (expF c.gain).getD 0 / s)))

/-- The fallback's inner accumulation loop: `sum_prob += np.exp(gain_ - gain)`
over all candidates with nonzero gain, stopping (`break`) at the first
overflow.  Returns the partial sum and whether the loop broke. -/
def tier2SumLoop (expF : ℚ → Option ℚ) (g : ℚ) :
    List Candidate → ℚ → ℚ × Bool
  | [], acc => (acc, false)
  | c :: rest, acc =>
      if c.gain = 0 then tier2SumLoop expF g rest acc
      else
        match expF (c.gain - g) with
        | some v => tier2SumLoop expF g rest (acc + v)
        | none => (acc, true)

/-- Second-tier (overflow fallback) probability of one candidate.  In the
source, a failing probe `np.exp(max_gain - gain)` and a `break` in the sum
loop each write probability 0, but both writes are overwritten by
`prob['probability'] = 1.0 / sum_prob` whenever the accumulated `sum_prob`
is nonzero, so the final value depends only on `sum_prob`; the final
division's own float overflow/underflow cannot occur in exact arithmetic.
`maxGain` is kept in the signature because the source reads it in the probe
whose result never survives. -/
def tier2Prob (expF : ℚ → Option ℚ) (cands : List Candidate) (maxGain : ℚ)
    (c : Candidate) : ℚ :=
  if c.gain = 0 then 0
  else
    let sb := tier2SumLoop expF c.gain cands 0
    if sb.1 = 0 then 0 else 1 / sb.1

/-- Probability computation of `ExponentialMechanism`: the direct softmax
when no exponential overflows, otherwise the shifted fallback, candidate by
candidate. -/
def computeProbs (expF : ℚ → Option ℚ) (cands : List Candidate)
    (maxGain : ℚ) : List (Candidate × ℚ) :=
  match tier1Probs expF cands with
  | some ps => ps
  | none => cands.map (fun c => (c, tier2Prob expF cands maxGain c))

/-- Stable insertion of `x` into an already-sorted list: `x` goes after every
element `y` with `le y x`, so elements comparing equal keep their original
relative order. -/
def insertStable {α : Type} (le : α → α → Bool) (x : α) : List α → List α
  | [] => [x]
  | y :: ys => if le y x then y :: insertStable le x ys else x :: y :: ys

/-- Stable sort (the semantics of Python's `sorted`): insert each element in
turn into the sorted prefix. -/
def sortStable {α : Type} (le : α → α → Bool) (l : List α) : List α :=
  l.foldl (fun acc x => insertStable le x acc) []

/-- Candidates sorted by ascending computed probability; descending (still
stable) when `reverse` is set, matching `sorted(..., key=lambda d:
d['probability'], reverse=reverse)`. -/
def sortProbs (reverse : Bool) (l : List (Candidate × ℚ)) :
    List (Candidate × ℚ) :=
  sortStable
    (fun a b => if reverse then decide (b.2 ≤ a.2) else decide (a.2 ≤ b.2)) l

/-- The selection walk: accumulate `prob['probability'] += previous_prob` and
return the first candidate whose cumulative probability meets the uniform
draw (`operator.ge` normally, `operator.le` in reversed mode); `none` if the
walk falls off the end. -/
def selectLoop (reverse : Bool) (r : ℚ) :
    List (Candidate × ℚ) → ℚ → Option Candidate
  | [], _ => none
  | cp :: rest, prev =>
      if (if reverse then cp.2 + prev ≤ r else r ≤ cp.2 + prev) then some cp.1
      else selectLoop reverse r rest (cp.2 + prev)

/-- The exponential mechanism (`ExponentialMechanism` in `model.py`).
`randomProb` is the value drawn by `np.random.uniform()` (an external
primitive).  After the two-tier, overflow-safe probability computation it
returns `none` when every gain is non-positive
(`(np.asarray([prob['gain'] ...]) <= 0.0).all()`), otherwise walks the
sorted cumulative distribution. -/
def ExponentialMechanism (expF : ℚ → Option ℚ)
    (probabilities : List Candidate) (maxGain : ℚ) (reverse : Bool)
    (randomProb : ℚ) : Option Candidate :=
  let probs := computeProbs expF probabilities maxGain
  if ∀ c ∈ probabilities, c.gain ≤ 0 then none
  else selectLoop reverse randomProb (sortProbs reverse probs) 0


/-- The pair of comparison operators used to partition a node's rows
(`GetOperators`, identical in `GradientBoostingEnsemble` and
`DifferentiallyPrivateTree`): equality / inequality for a categorical
feature (`self.cat_idx and index in self.cat_idx`; an empty or missing
index list is falsy), strict less-than / greater-or-equal for a numerical
one. -/
def GetOperators (catIdx : List ℕ) (index : ℕ) :
    (ℚ → ℚ → Bool) × (ℚ → ℚ → Bool) :=
  if catIdx ≠ [] ∧ index ∈ catIdx then
    ((fun a b => decide (a = b)), (fun a b => decide (a ≠ b)))
  else
    ((fun a b => decide (a < b)), (fun a b => decide (b ≤ a)))

/-- Select the entries of `xs` whose mask bit is set: the composition
`xs[np.where(mask)[0]]` used throughout the source. -/
def maskFilter {α : Type} : List α → List Bool → List α
  | [], _ => []
  | _ :: _, [] => []
  | x :: xs, b :: bs => if b then x :: maskFilter xs bs else maskFilter xs bs

/-- Column `f` of the row-major feature matrix (`X[:, f]`).  Matrices are
rectangular in numpy; `getD` supplies a default only off that contract. -/
def column (X : List (List ℚ)) (f : ℕ) : List ℚ :=
  X.map (fun row => row.getD f 0)

/-- Split utility (`ComputeGain`): `(Σ grad_lhs)² / (|lhs| + λ) +
(Σ grad_rhs)² / (|rhs| + λ)`; the split-invariant total term is omitted as
in the source.  With `|gradients| = |X|` (true at every call site) the
length of the filtered gradient list equals the partition size `len(lhs)`. -/
def ComputeGain (catIdx : List ℕ) (l2_lambda : ℚ) (index : ℕ) (value : ℚ)
    (X : List (List ℚ)) (gradients : List ℚ) : ℚ :=
  let ops := GetOperators catIdx index
  let lhs_grad := maskFilter gradients ((column X index).map (fun x => ops.1 x value))
  let rhs_grad := maskFilter gradients ((column X index).map (fun x => ops.2 x value))
  lhs_grad.sum ^ 2 / ((lhs_grad.length : ℚ) + l2_lambda)
    + rhs_grad.sum ^ 2 / ((rhs_grad.length : ℚ) + l2_lambda)

/-- Sorted unique values of a column (`np.unique`).  Deduplicating the
stably sorted list keeps one representative per value; which duplicate
survives is immaterial because duplicates are equal. -/
def uniqueValues (l : List ℚ) : List ℚ :=
  (sortStable (fun a b => decide (a ≤ b)) l).dedup

/-- Rounding to 7 decimal places (`np.around(..., decimals=7)`).  `np.around`
rounds ties to even while `round` rounds ties up; the two differ only on
exact ties at the 8th decimal, which never arise in the developments
below. -/
def roundDec7 (q : ℚ) : ℚ := (round (q * 10000000) : ℚ) / 10000000

/-- Maximum of a gain list.  The source folds `if exp_gain > max_gain` from
`max_gain = -np.inf`; for a nonempty list this is the maximum, and for the
empty list the value is never used (the mechanism returns `none` on an
empty candidate list). -/
def listMax : List ℚ → ℚ
  | [] => 0
  | x :: xs => xs.foldl max x

/-- Per-tree hyperparameters of `DifferentiallyPrivateTree`.  The embedding
covers the default growth mode, so `use_bfs`, `use_3_trees` and
`max_leaves` (all off) are not represented. -/
structure TreeParams where
  tree_index : ℕ
  learning_rate : ℚ
  l2_threshold : ℚ
  l2_lambda : ℚ
  privacy_budget : ℚ
  delta_g : ℚ
  delta_v : ℚ
  max_depth : ℕ
  min_samples_split : ℕ
  cat_idx : List ℕ
  deriving DecidableEq, Repr

/-- All split candidates examined by `FindBestSplit`: every (feature index,
unique column value) pair, with gain `privacy_budget_for_node * raw_gain /
(2 * delta_g)` where `privacy_budget_for_node = round(B/2 / (max_depth+1),
7)`. -/
def splitCandidates (p : TreeParams) (X : List (List ℚ)) (g : List ℚ) :
    List Candidate :=
  let budget := roundDec7 ((p.privacy_budget / 2) / ((p.max_depth : ℚ) + 1))
  (List.range (X.headD []).length).flatMap (fun f =>
    (uniqueValues (column X f)).map (fun v =>
      { index := f, value := v,
        gain := budget * ComputeGain p.cat_idx p.l2_lambda f v X g
          / (2 * p.delta_g) }))

/-- `FindBestSplit`: feed all candidates to the exponential mechanism with
the running maximum gain; the uniform draw for this call is `uni ctr` and
the counter advances by one. -/
def FindBestSplit (expF : ℚ → Option ℚ) (uni : ℕ → ℚ) (p : TreeParams)
    (X : List (List ℚ)) (g : List ℚ) (ctr : ℕ) : Option Candidate × ℕ :=
  let cands := splitCandidates p X g
  (ExponentialMechanism expF cands (listMax (cands.map (fun c => c.gain)))
    false (uni ctr), ctr + 1)

/-- Leaf prediction (`GetLeafPrediction`):
`-1 * np.sum(gradients) / (len(gradients) + l2_lambda)`. -/
def GetLeafPrediction (l2_lambda : ℚ) (gradients : List ℚ) : ℚ :=
  -1 * gradients.sum / ((gradients.length : ℚ) + l2_lambda)

/-- A fitted decision tree: `DecisionNode` objects after `Fit`, where a node
is a leaf (prediction set, no children) exclusive-or an internal node
(index and value set, two children). -/
inductive DTree where
  | leaf (prediction : ℚ)
  | node (index : ℕ) (value : ℚ) (left right : DTree)
  deriving DecidableEq, Repr

/-- Depth-first tree construction (`MakeTreeDFS`).  The source's single test
`depth == 0 or len(X) < min_samples_split` is split over the two depth
patterns; a chosen split partitions rows with the feature's operators and
recurses left then right (threading the uniform-draw counter in that
order). -/
def MakeTreeDFS (expF : ℚ → Option ℚ) (uni : ℕ → ℚ) (p : TreeParams) :
    ℕ → List (List ℚ) → List ℚ → ℕ → DTree × ℕ
  | 0, _, g, ctr => (DTree.leaf (GetLeafPrediction p.l2_lambda g), ctr)
  | depth + 1, X, g, ctr =>
      if X.length < p.min_samples_split then
        (DTree.leaf (GetLeafPrediction p.l2_lambda g), ctr)
      else
        match FindBestSplit expF uni p X g ctr with
        | (some best, c1) =>
            let ops := GetOperators p.cat_idx best.index
            let lmask := (column X best.index).map (fun x => ops.1 x best.value)
            let rmask := (column X best.index).map (fun x => ops.2 x best.value)
            let lres := MakeTreeDFS expF uni p depth (maskFilter X lmask)
              (maskFilter g lmask) c1
            let rres := MakeTreeDFS expF uni p depth (maskFilter X rmask)
              (maskFilter g rmask) lres.2
            (DTree.node best.index best.value lres.1 rres.1, rres.2)
        | (none, c1) => (DTree.leaf (GetLeafPrediction p.l2_lambda g), c1)

/-- Prediction-time routing (`DifferentiallyPrivateTree._Predict`): at an
internal node the row goes right exactly when `row[node.index] >=
node.value`, with no reference to the categorical index set. -/
def TreePredictRow : DTree → List ℚ → ℚ
  | DTree.leaf p, _ => p
  | DTree.node i v l r, row =>
      if v ≤ row.getD i 0 then TreePredictRow r row else TreePredictRow l row

/-- `DifferentiallyPrivateTree.Predict`: one routed prediction per row. -/
def TreePredict (t : DTree) (X : List (List ℚ)) : List ℚ :=
  X.map (TreePredictRow t)

/-- The leaf reached from the root along a path of child choices (`false` =
left, `true` = right); `none` if the path does not end exactly at a leaf.
Used to state positional claims about leaf predictions. -/
def leafAt : DTree → List Bool → Option ℚ
  | DTree.leaf p, [] => some p
  | DTree.leaf _, _ :: _ => none
  | DTree.node _ _ _ _, [] => none
  | DTree.node _ _ l r, b :: bs => leafAt (if b then r else l) bs

/-- `ClipLeaves`: threshold `l2_threshold * (1 - learning_rate)^tree_index`;
a prediction whose magnitude strictly exceeds it is clamped to the signed
threshold, all others pass through. -/
def ClipLeaves (leaves : List ℚ) (l2_threshold learning_rate : ℚ)
    (tree_index : ℕ) : List ℚ :=
  let threshold := l2_threshold * (1 - learning_rate) ^ tree_index
  leaves.map (fun pred =>
    if threshold < |pred| then (if 0 < pred then threshold else -threshold)
    else pred)

/-- Sequential Laplace draws added to consecutive leaves starting at stream
position `i`: draw number `i` with scale `scale` is `lap i scale`. -/
def addNoiseFrom (lap : ℕ → ℚ → ℚ) (scale : ℚ) : ℕ → List ℚ → List ℚ
  | _, [] => []
  | i, pred :: rest => (pred + lap i scale) :: addNoiseFrom lap scale (i + 1) rest

/-- `AddLaplacianNoise`.  The external primitive `np.random.laplace(0, scale)`
is modelled as a deterministic function `lap` of the global stream position
and the scale.  The source calls `np.random.seed(0)` first, so the incoming
stream position `rngState` is discarded: every call draws `lap 0 scale`,
`lap 1 scale`, ... and leaves the stream at position `leaves.length`.  (The
source comment says the seeding is for cross-validation stability and
should be commented out for real use, but it is live code.) -/
def AddLaplacianNoise (lap : ℕ → ℚ → ℚ) (leaves : List ℚ) (scale : ℚ)
    (rngState : ℕ) : List ℚ × ℕ :=
  (addNoiseFrom lap scale 0 leaves, leaves.length)

/-- `Shrink`: multiply every leaf prediction by the learning rate.  (Named
`ShrinkLeaves` here because Mathlib already declares a `Shrink`.) -/
def ShrinkLeaves (leaves : List ℚ) (learning_rate : ℚ) : List ℚ :=
  leaves.map (fun pred => pred * learning_rate)

/-- The predictions of the truthy leaves in registry order.  `Fit` collects
`[node for node in self.nodes if node.prediction]`; the registry is filled
in post-order (children before parent), in which leaves appear left to
right, and Python truthiness drops both internal nodes (`None`) and leaves
whose prediction is exactly `0.0`. -/
def collectLeafPreds : DTree → List ℚ
  | DTree.leaf p => if p ≠ 0 then [p] else []
  | DTree.node _ _ l r => collectLeafPreds l ++ collectLeafPreds r

/-- Write the post-processed predictions back into the tree's truthy leaves
in the same left-to-right order, leaving falsy (zero-prediction) leaves
untouched — the functional rendering of the source's in-place mutation of
the shared leaf objects. -/
def writebackLeaves : DTree → List ℚ → DTree × List ℚ
  | DTree.leaf p, qs =>
      if p ≠ 0 then
        match qs with
        | q :: qt => (DTree.leaf q, qt)
        | [] => (DTree.leaf p, [])
      else (DTree.leaf p, qs)
  | DTree.node i v l r, qs =>
      let lres := writebackLeaves l qs
      let rres := writebackLeaves r lres.2
      (DTree.node i v lres.1 rres.1, rres.2)

/-- `DifferentiallyPrivateTree.Fit` (default DFS mode): build the tree, then
clip, noise (scale `delta_v / (privacy_budget / 2)`) and shrink the truthy
leaves, in that order. -/
def FitTree (expF : ℚ → Option ℚ) (uni : ℕ → ℚ) (lap : ℕ → ℚ → ℚ)
    (p : TreeParams) (X : List (List ℚ)) (g : List ℚ) (rngState : ℕ) : DTree :=
  let t := (MakeTreeDFS expF uni p p.max_depth X g 0).1
  let leaves := collectLeafPreds t
  let clipped := ClipLeaves leaves p.l2_threshold p.learning_rate p.tree_index
  let scale := p.delta_v / (p.privacy_budget / 2)
  let noised := (AddLaplacianNoise lap clipped scale rngState).1
  let shrunk := ShrinkLeaves noised p.learning_rate
  (writebackLeaves t shrunk).1

/-- `np.add` on 1-d arrays: equal lengths add elementwise, a length-1
operand broadcasts, anything else raises (`none`). -/
def npAdd (a b : List ℚ) : Option (List ℚ) :=
  if a.length = b.length then some (List.zipWith (fun x y => x + y) a b)
  else if a.length = 1 then some (b.map (fun x => a.headD 0 + x))
  else if b.length = 1 then some (a.map (fun x => x + b.headD 0))
  else none

/-- `GradientBoostingEnsemble.Predict`.  `np.sum(tree.Predict(X) for tree in
self.trees)` adds the per-tree prediction arrays elementwise; over an EMPTY
tree list the generator sum is the scalar `0`, and the subsequent
`len(predictions)` raises `TypeError` — modelled as `none`.  Otherwise the
result is `np.add(init_score[:len(predictions)], predictions)`. -/
def EnsemblePredict (trees : List DTree) (initScore : List ℚ)
    (X : List (List ℚ)) : Option (List ℚ) :=
  match trees with
  | [] => none
  | t :: ts =>
      let predictions := ts.foldl
        (fun acc t2 => List.zipWith (fun x y => x + y) acc (TreePredict t2 X))
        (TreePredict t X)
      npAdd (initScore.take predictions.length) predictions

/-- `ComputeGradientForLossFunction`: `-(y - y_pred)`. -/
def ComputeGradientForLossFunction (y y_pred : List ℚ) : List ℚ :=
  List.zipWith (fun a b => -(a - b)) y y_pred

/-- `int(np.ceil(a / b))` for naturals with `b > 0`. -/
def ceilDivNat (a b : ℕ) : ℕ := (a + b - 1) / b

/-- Hyperparameters of `GradientBoostingEnsemble`.  The constructor pins
`l2_threshold = 1.0` and `l2_lambda = 0.1`; they are kept as fields here.
`use_bfs`, `use_3_trees` and `max_leaves` are off (default DFS path). -/
structure EParams where
  nb_trees : ℕ
  nb_trees_per_ensemble : ℕ
  max_depth : ℕ
  privacy_budget : ℚ
  learning_rate : ℚ
  min_samples_split : ℕ
  balance_partition : Bool
  cat_idx : List ℕ
  l2_threshold : ℚ
  l2_lambda : ℚ
  deriving DecidableEq, Repr

/-- The row quota of tree `treeIdx` (`Train`, lines 151-171).  With balanced
partitioning: `len(X) // per` when `nb_trees % per == 0`, otherwise the
source's asymmetric last-ensemble formulas; unbalanced mode is the paper's
geometric decay with `int()` truncation (truncation and floor agree on the
nonnegative values arising). -/
def numberOfRows (p : EParams) (lenX treeIdx : ℕ) : ℕ :=
  if p.balance_partition then
    if p.nb_trees % p.nb_trees_per_ensemble = 0 then
      lenX / p.nb_trees_per_ensemble
    else if ceilDivNat treeIdx p.nb_trees_per_ensemble
        = ceilDivNat p.nb_trees p.nb_trees_per_ensemble then
      lenX / (p.nb_trees % p.nb_trees_per_ensemble)
    else
      lenX / p.nb_trees_per_ensemble
        + lenX / (p.nb_trees % p.nb_trees_per_ensemble)
  else
    (((lenX : ℚ) * p.learning_rate *
        (1 - p.learning_rate) ^ (treeIdx % p.nb_trees_per_ensemble)) /
      (1 - (1 - p.learning_rate) ^ p.nb_trees_per_ensemble)).floor.toNat

/-- The external numeric primitives (spec section 2): exponential, uniform
draws (a stream per tree index), Laplace draws (a function of the stream
position after the seed reset) and square root. -/
structure Prims where
  expF : ℚ → Option ℚ
  uniOf : ℕ → ℕ → ℚ
  lap : ℕ → ℚ → ℚ
  sqrtQ : ℚ → ℚ

/-- The data handed to the training loop.  `train_test_split` is an external
collaborator (spec sections 1 and 6): `X, y` are the train part, `X_test,
y_test` the held-out part, and `initScore` is `np.full(len(y_full),
mean(y_full))` computed from the labels before the split. -/
structure TrainData where
  X : List (List ℚ)
  y : List ℚ
  X_test : List (List ℚ)
  y_test : List ℚ
  initScore : List ℚ

/-- The loop-carried state of `Train`: accepted trees, the shrinking
sub-ensemble working set, the best validation RMSE of the current cycle
(`np.inf` is `⊤`), the gradient-refresh flag and the `gradients` local. -/
structure TrainState where
  trees : List DTree
  X_ensemble : List (List ℚ)
  y_ensemble : List ℚ
  prev_rmse : WithTop ℚ
  update_gradients : Bool
  gradients : List ℚ
  deriving DecidableEq

/-- The `DifferentiallyPrivateTree` parameters built inside `Train`:
`delta_g = 3 * l2_threshold²`,
`delta_v = min(l2_threshold / (1 + l2_lambda),
2 * l2_threshold * (1-learning_rate)^tree_index)`, and the per-tree budget
`privacy_budget / ceil(nb_trees / nb_trees_per_ensemble)`. -/
def treeParamsFor (p : EParams) (treeIdx : ℕ) : TreeParams :=
  { tree_index := treeIdx
    learning_rate := p.learning_rate
    l2_threshold := p.l2_threshold
    l2_lambda := p.l2_lambda
    privacy_budget := p.privacy_budget
      / ((ceilDivNat p.nb_trees p.nb_trees_per_ensemble : ℕ) : ℚ)
    delta_g := 3 * p.l2_threshold ^ 2
    delta_v := min (p.l2_threshold / (1 + p.l2_lambda))
      (2 * p.l2_threshold * (1 - p.learning_rate) ^ treeIdx)
    max_depth := p.max_depth
    min_samples_split := p.min_samples_split
    cat_idx := p.cat_idx }

/-- Lines 131-149 of `Train`: the gradient update (initial score for the
first tree, a recomputation over the current working set when the refresh
flag is set, otherwise the stale value), followed by the cycle-start reset
(fresh working-set copy, `prev_rmse = inf`, refresh flag on, and for a
non-first tree a recomputation over the just-reset working set).
`self.Predict` over an empty tree list raises, propagated as `none`. -/
def gradStage (p : EParams) (d : TrainData) (treeIdx : ℕ) (s : TrainState) :
    Option TrainState :=
  let g0 : Option (List ℚ) :=
    if treeIdx = 0 then some d.initScore
    else if s.update_gradients then
      (EnsemblePredict s.trees d.initScore s.X_ensemble).map
        (fun pred => ComputeGradientForLossFunction s.y_ensemble pred)
    else some s.gradients
  g0.bind (fun g =>
    if treeIdx % p.nb_trees_per_ensemble = 0 then
      let base : TrainState :=
        { s with X_ensemble := d.X, y_ensemble := d.y, prev_rmse := ⊤,
                 update_gradients := true, gradients := g }
      if 0 < treeIdx then
        (EnsemblePredict s.trees d.initScore d.X).map
          (fun pred =>
            { base with gradients := ComputeGradientForLossFunction d.y pred })
      else some base
    else some { s with gradients := g })

/-- The gradient-based-filtering mask (`np.abs(gradients_tree) <=
self.l2_threshold`). -/
def gbfMask (grads : List ℚ) (l2_threshold : ℚ) : List Bool :=
  grads.map (fun gr => decide (|gr| ≤ l2_threshold))

/-- Outcome of one iteration of `Train` up to (and including) tree fitting:
either the `continue` on a zero row quota, or the post-gradient state
together with the fitted tree, the originally sampled row indices and the
row indices actually scheduled for removal
(`selected_rows = rows[rows_gbf] if tree_index > 0 else rows`). -/
inductive StepPrep where
  | skip (s1 : TrainState)
  | fit (s1 : TrainState) (tree : DTree) (rows selectedRows : List ℕ)
  deriving DecidableEq

/-- Lines 131-225 of `Train` for one `tree_index`: gradients and cycle
reset, row quota (`continue` when zero), uniform row sampling
(`np.random.randint`, an external primitive returning indices below the
working-set size), gradient-based filtering for every tree past the first,
and the differentially private fit of the sampled-and-filtered rows. -/
def trainPrep (p : EParams) (pr : Prims) (rowsOf : ℕ → ℕ → List ℕ)
    (d : TrainData) (treeIdx : ℕ) (s : TrainState) : Option StepPrep :=
  (gradStage p d treeIdx s).map (fun s1 =>
    let n := numberOfRows p d.X.length treeIdx
    if n = 0 then StepPrep.skip s1
    else
      let rows := rowsOf treeIdx n
      let X_tree := rows.map (fun i => s1.X_ensemble.getD i [])
      let gradients_tree := rows.map (fun i => s1.gradients.getD i 0)
      let mask := gbfMask gradients_tree p.l2_threshold
      let X_tree2 := if 0 < treeIdx then maskFilter X_tree mask else X_tree
      let gradients_tree2 :=
        if 0 < treeIdx then maskFilter gradients_tree mask else gradients_tree
      let tree := FitTree pr.expF (pr.uniOf treeIdx) pr.lap
        (treeParamsFor p treeIdx) X_tree2 gradients_tree2 0
      StepPrep.fit s1 tree rows
        (if 0 < treeIdx then maskFilter rows mask else rows))

/-- `np.mean`.  On an empty array numpy produces NaN; the claims never
evaluate it there (the 0 produced by rational division by zero is
inert). -/
def meanQ (l : List ℚ) : ℚ := l.sum / (l.length : ℚ)

/-- The candidate validation RMSE (`np.sqrt(np.mean(np.square(y_test -
self.Predict(X_test))))`) with the candidate tree already appended; the
square root is the external primitive `sqrtQ`. -/
def candidateRmse (pr : Prims) (d : TrainData) (trees : List DTree) :
    Option ℚ :=
  (EnsemblePredict trees d.initScore d.X_test).map (fun pred =>
    pr.sqrtQ (meanQ (List.zipWith (fun a b => (a - b) ^ 2) d.y_test pred)))

/-- Positional deletion helper for `npDelete`. -/
def deleteFrom {α : Type} (idxs : List ℕ) : ℕ → List α → List α
  | _, [] => []
  | i, x :: rest =>
      if i ∈ idxs then deleteFrom idxs (i + 1) rest
      else x :: deleteFrom idxs (i + 1) rest

/-- `np.delete(xs, idxs, axis=0)`: drop the listed positions. -/
def npDelete {α : Type} (xs : List α) (idxs : List ℕ) : List α :=
  deleteFrom idxs 0 xs

/-- Lines 131-243 of `Train` for one `tree_index`: after `trainPrep`, append
the candidate tree, evaluate the validation RMSE, and either reject
(`rmse >= prev_rmse`: pop the tree, clear the refresh flag, leave the
working set alone) or accept (keep the tree, record the new best RMSE, set
the refresh flag, and `np.delete` the `selected_rows` from the working
set). -/
def trainStep (p : EParams) (pr : Prims) (rowsOf : ℕ → ℕ → List ℕ)
    (d : TrainData) (treeIdx : ℕ) (s : TrainState) : Option TrainState :=
  (trainPrep p pr rowsOf d treeIdx s).bind (fun prep =>
    match prep with
    | StepPrep.skip s1 => some s1
    | StepPrep.fit s1 tree _rows selected =>
        (candidateRmse pr d (s1.trees ++ [tree])).map (fun (rmse : ℚ) =>
          if s1.prev_rmse ≤ (rmse : WithTop ℚ) then
            { s1 with update_gradients := false }
          else
            { s1 with trees := s1.trees ++ [tree], update_gradients := true,
                      prev_rmse := (rmse : WithTop ℚ),
                      X_ensemble := npDelete s1.X_ensemble selected,
                      y_ensemble := npDelete s1.y_ensemble selected }))

/-- `GradientBoostingEnsemble.Train` over all tree indices (default
configuration, so no 3-node combination phase afterwards). -/
def Train (p : EParams) (pr : Prims) (rowsOf : ℕ → ℕ → List ℕ)
    (d : TrainData) : Option TrainState :=
  (List.range p.nb_trees).foldl (fun os i => os.bind (trainStep p pr rowsOf d i))
    (some { trees := [], X_ensemble := [], y_ensemble := [], prev_rmse := ⊤,
            update_gradients := true, gradients := [] })

/-- Concrete tree parameters used by witnesses: tree 0, learning rate 1/2,
unit threshold, budget 1, depth 3. -/
def tp0 : TreeParams :=
  { tree_index := 0, learning_rate := 1/2, l2_threshold := 1,
    l2_lambda := 1/10, privacy_budget := 1, delta_g := 3, delta_v := 10/11,
    max_depth := 3, min_samples_split := 2, cat_idx := [] }

/-- A constant uniform-draw stream for witnesses. -/
def uni0 : ℕ → ℚ := fun _ => 1/2

/-- A constant Laplace-draw table for witnesses. -/
def lap0 : ℕ → ℚ → ℚ := fun _ _ => 1/4

/-- Ensemble hyperparameters for the training-loop witnesses: 2 trees in one
sub-ensemble of 2, depth 1, budget 2, learning rate 1/2. -/
def ep45 : EParams :=
  { nb_trees := 2, nb_trees_per_ensemble := 2, max_depth := 1,
    privacy_budget := 2, learning_rate := 1/2, min_samples_split := 2,
    balance_partition := true, cat_idx := [], l2_threshold := 1,
    l2_lambda := 1/10 }

/-- External primitives for the training-loop witnesses: the rational
exponential stand-in, constant uniform draws, zero Laplace noise and the
identity in place of the square root (only the comparison outcome
matters). -/
def pr45 : Prims :=
  { expF := expModel, uniOf := fun _ _ => 1/2, lap := fun _ _ => 0,
    sqrtQ := fun q => q }

/-- Row sampling oracle for the training-loop witnesses: the first `n`
indices. -/
def rows45 : ℕ → ℕ → List ℕ := fun _ n => List.range n

/-- Training data for the training-loop witnesses. -/
def data45 : TrainData :=
  { X := [[1], [2], [3], [4]], y := [0, 0, 0, 0], X_test := [[9]],
    y_test := [0], initScore := [3, 3, 3, 3] }

/-- Incoming state for the C5 accept witness at `tree_index = 1`: no tree
yet, fresh cycle RMSE, stale gradients with one entry above the clipping
threshold. -/
def st5 : TrainState :=
  { trees := [], X_ensemble := [[1], [2], [3], [4]],
    y_ensemble := [0, 0, 0, 0], prev_rmse := ⊤, update_gradients := false,
    gradients := [1/2, 2, 0, 0] }

/-- The state `trainStep` produces from `st5` (acceptance: tree kept, best
RMSE recorded, only the GBF-surviving sampled row 0 removed). -/
def st5res : TrainState :=
  { trees := [DTree.leaf (-5/22)], X_ensemble := [[2], [3], [4]],
    y_ensemble := [0, 0, 0], prev_rmse := ((3721/484 : ℚ) : WithTop ℚ),
    update_gradients := true, gradients := [1/2, 2, 0, 0] }

/-- Incoming state for the C4 reject witness at `tree_index = 1`: one
accepted tree, best RMSE 1, refresh flag set. -/
def st4 : TrainState :=
  { trees := [DTree.leaf 0], X_ensemble := [[1], [2], [3], [4]],
    y_ensemble := [0, 0, 0, 0], prev_rmse := ((1 : ℚ) : WithTop ℚ),
    update_gradients := true, gradients := [0, 0, 0, 0] }

/-- `st4` after the gradient refresh performed by `trainPrep`. -/
def st4g : TrainState := { st4 with gradients := [3, 3, 3, 3] }

/-- Ensemble hyperparameters for the C6 row-quota counterexample: 2 trees,
2 per sub-ensemble (the "perfect split" branch), 5 training rows. -/
def ep6 : EParams :=
  { nb_trees := 2, nb_trees_per_ensemble := 2, max_depth := 6,
    privacy_budget := 1, learning_rate := 1/10, min_samples_split := 2,
    balance_partition := true, cat_idx := [], l2_threshold := 1,
    l2_lambda := 1/10 }

/-- Unfolding of the normal-mode selection walk on a nonempty list; holds by
definitional reduction of the reversed-mode branch. -/
theorem selectLoop_false_cons (r : ℚ) (cp : Candidate × ℚ)
    (rest : List (Candidate × ℚ)) (prev : ℚ) :
    selectLoop false r (cp :: rest) prev =
      if r ≤ cp.2 + prev then some cp.1
      else selectLoop false r rest (cp.2 + prev) := rfl

/-- Every pair produced by `computeProbs` whose candidate has zero gain
carries probability zero: tier 1 forces it explicitly, tier 2's fallback
likewise (`else: prob['probability'] = 0.`). -/
theorem computeProbs_gain_zero (expF : ℚ → Option ℚ) (cands : List Candidate)
    (maxGain : ℚ) :
    ∀ cp ∈ computeProbs expF cands maxGain, cp.1.gain = 0 → cp.2 = 0 := by
  intro cp hcp hz
  unfold computeProbs at hcp
  cases htier : tier1Probs expF cands with
  | none =>
      rw [htier] at hcp
      obtain ⟨c, _, rfl⟩ := List.mem_map.1 hcp
      have hz' : c.gain = 0 := hz
      simp [tier2Prob, hz']
  | some ps =>
      rw [htier] at hcp
      unfold tier1Probs at htier
      cases hsum : expSumT1 expF cands with
      | none => rw [hsum] at htier; exact absurd htier (by simp)
      | some s =>
          rw [hsum] at htier
          simp only [Option.some.injEq] at htier
          subst htier
          obtain ⟨c, _, rfl⟩ := List.mem_map.1 hcp
          have hz' : c.gain = 0 := hz
          simp [hz']

theorem mem_insertStable {α : Type} (le : α → α → Bool) (x a : α) :
    ∀ l : List α, a ∈ insertStable le x l → a = x ∨ a ∈ l := by
  intro l
  induction l with
  | nil => simp [insertStable]
  | cons y ys ih =>
      simp only [insertStable]
      by_cases hle : le y x = true
      · rw [if_pos hle]
        intro h
        rcases List.mem_cons.1 h with rfl | hm
        · exact Or.inr (List.mem_cons_self _ _)
        · rcases ih hm with rfl | h'
          · exact Or.inl rfl
          · exact Or.inr (List.mem_cons_of_mem _ h')
      · rw [if_neg hle]
        intro h
        rcases List.mem_cons.1 h with rfl | hm
        · exact Or.inl rfl
        · exact Or.inr hm

theorem mem_sortStable_aux {α : Type} (le : α → α → Bool) (a : α) :
    ∀ (l acc : List α),
      a ∈ l.foldl (fun acc x => insertStable le x acc) acc →
      a ∈ l ∨ a ∈ acc := by
  intro l
  induction l with
  | nil => intro acc h; rw [List.foldl_nil] at h; exact Or.inr h
  | cons x xs ih =>
      intro acc h
      rw [List.foldl_cons] at h
      rcases ih (insertStable le x acc) h with h' | h'
      · exact Or.inl (List.mem_cons_of_mem _ h')
      · rcases mem_insertStable le x a acc h' with rfl | h''
        · exact Or.inl (List.mem_cons_self _ _)
        · exact Or.inr h''

theorem mem_sortStable {α : Type} (le : α → α → Bool) (a : α) (l : List α)
    (h : a ∈ sortStable le l) : a ∈ l := by
  rcases mem_sortStable_aux le a l [] h with h' | h'
  · exact h'
  · exact absurd h' (List.not_mem_nil a)

/-- If the selection walk starts with a cumulative value strictly below the
draw and every zero-gain pair carries probability zero, then a returned
candidate cannot have zero gain (a zero probability cannot lift the
cumulative value up to the draw). -/
theorem selectLoop_gain_ne_zero (r : ℚ) :
    ∀ (l : List (Candidate × ℚ)) (prev : ℚ) (c : Candidate),
      (∀ cp ∈ l, cp.1.gain = 0 → cp.2 = 0) → prev < r →
      selectLoop false r l prev = some c → c.gain ≠ 0 := by
  intro l
  induction l with
  | nil => intro prev c _ _ h; exact absurd h (by simp [selectLoop])
  | cons cp rest ih =>
      intro prev c hzero hprev h
      rw [selectLoop_false_cons] at h
      by_cases hcond : r ≤ cp.2 + prev
      · rw [if_pos hcond] at h
        obtain rfl : cp.1 = c := Option.some.inj h
        intro hz
        have hp : cp.2 = 0 := hzero cp (List.mem_cons_self _ _) hz
        rw [hp, zero_add] at hcond
        exact absurd hcond (not_le.2 hprev)
      · rw [if_neg hcond] at h
        exact ih (cp.2 + prev) c
          (fun q hq => hzero q (List.mem_cons_of_mem _ hq)) (not_le.1 hcond) h

/-- When every candidate's gain is non-positive the mechanism returns
`none`, whatever the probabilities computed beforehand, in both modes. -/
theorem em_none_of_nonpos (expF : ℚ → Option ℚ) (cands : List Candidate)
    (maxGain : ℚ) (reverse : Bool) (r : ℚ)
    (h : ∀ c ∈ cands, c.gain ≤ 0) :
    ExponentialMechanism expF cands maxGain reverse r = none := by
  simp only [ExponentialMechanism]
  rw [if_pos h]

theorem zipWith_add_map {α : Type} (g h : α → ℚ) :
    ∀ X : List α,
      List.zipWith (fun x y => x + y) (X.map g) (X.map h)
        = X.map (fun x => g x + h x) := by
  intro X
  induction X with
  | nil => rfl
  | cons x xs ih => simp [ih]

/-- Folding elementwise addition of per-tree prediction arrays over a tree
list computes, rowwise, the accumulated function plus the sum of the trees'
predictions. -/
theorem foldl_predictions (X : List (List ℚ)) :
    ∀ (ts : List DTree) (g : List ℚ → ℚ),
      ts.foldl (fun acc t2 => List.zipWith (fun x y => x + y) acc (TreePredict t2 X))
          (X.map g)
        = X.map (fun row => g row + (ts.map (fun t => TreePredictRow t row)).sum) := by
  intro ts
  induction ts with
  | nil => intro g; simp
  | cons t2 ts ih =>
      intro g
      rw [List.foldl_cons,
        show TreePredict t2 X = X.map (TreePredictRow t2) from rfl,
        zipWith_add_map, ih]
      simp only [List.map_cons, List.sum_cons, add_assoc]

/-- The truthy-leaf list never contains a zero prediction (those leaves are
filtered out by Python truthiness). -/
theorem zero_not_mem_collectLeafPreds : ∀ t : DTree,
    (0 : ℚ) ∉ collectLeafPreds t := by
  intro t
  induction t with
  | leaf p =>
      simp only [collectLeafPreds]
      by_cases hp : p = 0
      · simp [hp]
      · simp only [ne_eq, hp, not_false_eq_true, if_true, List.mem_singleton]
        exact fun h => hp h.symm
  | node i v l r ihl ihr =>
      simp only [collectLeafPreds, List.mem_append]
      exact fun h => h.elim ihl ihr

/-- Writing processed predictions back into the truthy leaves never touches
a zero-prediction leaf, whatever the replacement list. -/
theorem writebackLeaves_zero : ∀ (t : DTree) (qs : List ℚ) (path : List Bool),
    leafAt t path = some 0 → leafAt (writebackLeaves t qs).1 path = some 0 := by
  intro t
  induction t with
  | leaf p =>
      intro qs path h
      cases path with
      | nil =>
          have hp : p = 0 := by simpa [leafAt] using h
          subst hp
          simp [writebackLeaves, leafAt]
      | cons b bs => exact absurd h (by simp [leafAt])
  | node i v l r ihl ihr =>
      intro qs path h
      cases path with
      | nil => exact absurd h (by simp [leafAt])
      | cons b bs =>
          cases b with
          | false =>
              have h' : leafAt l bs = some 0 := by simpa [leafAt] using h
              simpa [writebackLeaves, leafAt] using ihl qs bs h'
          | true =>
              have h' : leafAt r bs = some 0 := by simpa [leafAt] using h
              simpa [writebackLeaves, leafAt]
                using ihr (writebackLeaves l qs).2 bs h'

/-- C1 counterexample: for the candidate list with gains `[-1, 1]` (nonempty,
one strictly positive gain) and uniform draw `1/10`, `ExponentialMechanism`
in normal mode returns the candidate with gain `-1 ≤ 0` — the selector can
return a candidate of non-positive gain, refuting the claim that it never
does. -/
theorem c1_counterexample :
    ExponentialMechanism expModel [⟨0, 0, -1⟩, ⟨1, 0, 1⟩] 1 false (1/10)
        = some ⟨0, 0, -1⟩ ∧
    (⟨0, 0, -1⟩ : Candidate).gain ≤ 0 ∧
    (⟨1, 0, 1⟩ : Candidate) ∈ [(⟨0, 0, -1⟩ : Candidate), ⟨1, 0, 1⟩] ∧
    (0 : ℚ) < (⟨1, 0, 1⟩ : Candidate).gain := by
  refine ⟨?_, by norm_num, by norm_num, by norm_num⟩
  norm_num [ExponentialMechanism, computeProbs, tier1Probs, expSumT1,
    expGains, expModel, sortProbs, sortStable, insertStable, selectLoop]

/-- C1 (amended): in normal mode with a strictly positive uniform draw, a
returned candidate never has gain exactly 0 (zero-gain candidates carry
probability 0 and cannot be reached by the cumulative walk); candidates
with strictly negative gain can still be returned, as the counterexample
shows. -/
theorem c1_amended (expF : ℚ → Option ℚ) (cands : List Candidate)
    (maxGain r : ℚ) (c : Candidate) (hr : 0 < r)
    (h : ExponentialMechanism expF cands maxGain false r = some c) :
    c.gain ≠ 0 := by
  unfold ExponentialMechanism at h
  by_cases hall : ∀ c' ∈ cands, c'.gain ≤ 0
  · rw [if_pos hall] at h
    exact absurd h (by simp)
  · rw [if_neg hall] at h
    refine selectLoop_gain_ne_zero r _ 0 c ?_ hr h
    intro cp hcp hz
    exact computeProbs_gain_zero expF cands maxGain cp
      (mem_sortStable _ cp _ hcp) hz

/-- Witness for the amended C1 at a concrete input: a single candidate of
gain 1 is returned at draw `1/2`, and its gain is nonzero. -/
theorem c1_amended_witness : (⟨1, 0, 1⟩ : Candidate).gain ≠ 0 :=
  c1_amended expModel [⟨1, 0, 1⟩] 1 (1/2) ⟨1, 0, 1⟩ (by norm_num)
    (by norm_num [ExponentialMechanism, computeProbs, tier1Probs, expSumT1,
      expGains, expModel, sortProbs, sortStable, insertStable, selectLoop])

/-- C2: when every candidate gain is non-positive the selector returns
`none`, in normal and reversed mode alike; and the DFS builder, whose
`FindBestSplit` then yields no split, emits a leaf (with the standard leaf
prediction) instead of splitting. -/
theorem c2_nonpositive_gains :
    (∀ (expF : ℚ → Option ℚ) (cands : List Candidate) (maxGain : ℚ)
        (reverse : Bool) (r : ℚ), (∀ c ∈ cands, c.gain ≤ 0) →
        ExponentialMechanism expF cands maxGain reverse r = none) ∧
    (∀ (expF : ℚ → Option ℚ) (uni : ℕ → ℚ) (p : TreeParams) (depth : ℕ)
        (X : List (List ℚ)) (g : List ℚ) (ctr : ℕ),
        (∀ c ∈ splitCandidates p X g, c.gain ≤ 0) →
        (MakeTreeDFS expF uni p depth X g ctr).1
          = DTree.leaf (GetLeafPrediction p.l2_lambda g)) := by
  constructor
  · exact em_none_of_nonpos
  · intro expF uni p depth X g ctr h
    cases depth with
    | zero => simp [MakeTreeDFS]
    | succ d =>
        by_cases hlen : X.length < p.min_samples_split
        · simp [MakeTreeDFS, hlen]
        · have hem : FindBestSplit expF uni p X g ctr = (none, ctr + 1) := by
            simp only [FindBestSplit]
            rw [em_none_of_nonpos _ _ _ _ _ h]
          simp [MakeTreeDFS, hlen, hem]

/-- Witness for C2 at concrete inputs: a single non-positive-gain candidate
yields `none` (reversed mode), and the DFS builder on all-zero gradients
(all split gains 0) emits the leaf. -/
theorem c2_witness :
    ExponentialMechanism expModel [⟨0, 0, 0⟩] 0 true (1/2) = none ∧
    (MakeTreeDFS expModel uni0 tp0 3 [[1], [2]] [0, 0] 0).1
      = DTree.leaf (GetLeafPrediction tp0.l2_lambda [0, 0]) :=
  ⟨c2_nonpositive_gains.1 expModel [⟨0, 0, 0⟩] 0 true (1/2) (by norm_num),
   c2_nonpositive_gains.2 expModel uni0 tp0 3 [[1], [2]] [0, 0] 0
     (by norm_num [splitCandidates, uniqueValues, sortStable, insertStable,
       column, ComputeGain, GetOperators, maskFilter, roundDec7, round_eq,
       tp0, List.range_succ])⟩

/-- C3: with a nonnegative clipping threshold (nonnegative `l2_threshold`,
learning rate at most 1 — guaranteed by the externally validated
configuration), every clipped prediction has magnitude at most
`l2_threshold * (1-learning_rate)^tree_index`; predictions above the
threshold in magnitude are clamped to exactly the signed threshold and the
others pass through unchanged, all before any noise is added. -/
theorem c3_clip_bounds (l2t lr : ℚ) (k : ℕ) (leaves : List ℚ)
    (h1 : 0 ≤ l2t) (h2 : lr ≤ 1) :
    (∀ q ∈ ClipLeaves leaves l2t lr k, |q| ≤ l2t * (1 - lr) ^ k) ∧
    ClipLeaves leaves l2t lr k = leaves.map (fun pred =>
      if l2t * (1 - lr) ^ k < |pred| then
        (if 0 < pred then l2t * (1 - lr) ^ k else -(l2t * (1 - lr) ^ k))
      else pred) := by
  have ht : 0 ≤ l2t * (1 - lr) ^ k :=
    mul_nonneg h1 (pow_nonneg (by linarith) k)
  constructor
  · intro q hq
    simp only [ClipLeaves, List.mem_map] at hq
    obtain ⟨pred, _, rfl⟩ := hq
    by_cases hc : l2t * (1 - lr) ^ k < |pred|
    · rw [if_pos hc]
      by_cases hp : 0 < pred
      · rw [if_pos hp, abs_of_nonneg ht]
      · rw [if_neg hp, abs_neg, abs_of_nonneg ht]
    · rw [if_neg hc]
      exact not_lt.1 hc
  · rfl

/-- Witness for C3 at concrete leaves `[2, -3, 1/4]` with threshold `1/2`. -/
theorem c3_witness :
    (∀ q ∈ ClipLeaves [2, -3, 1/4] 1 (1/2) 1, |q| ≤ 1 * (1 - 1/2) ^ 1) ∧
    ClipLeaves [2, -3, 1/4] 1 (1/2) 1 = ([2, -3, 1/4] : List ℚ).map (fun pred =>
      if 1 * (1 - 1/2) ^ 1 < |pred| then
        (if 0 < pred then 1 * (1 - 1/2) ^ 1 else -(1 * (1 - 1/2) ^ 1))
      else pred) :=
  c3_clip_bounds 1 (1/2) 1 [2, -3, 1/4] (by norm_num) (by norm_num)

/-- C6 counterexample: `nb_trees = 2`, `nb_trees_per_ensemble = 2` (the
"perfect split" branch) with 5 training rows gives quota 2 to BOTH trees of
the cycle, including the final one; the quotas sum to 4, not 5 — the
non-divisible remainder row is folded nowhere, refuting the claimed
remainder folding and the per-cycle sum. -/
theorem c6_counterexample :
    numberOfRows ep6 5 0 = 2 ∧ numberOfRows ep6 5 1 = 2 ∧
    numberOfRows ep6 5 0 + numberOfRows ep6 5 1 ≠ 5 := by
  norm_num [numberOfRows, ep6, ceilDivNat]

/-- C6 (amended): with balanced partitioning and `nb_trees` divisible by
`nb_trees_per_ensemble`, EVERY tree of a cycle (the final one included)
receives quota `floor(|X| / nb_trees_per_ensemble)`; a cycle's total is
`nb_trees_per_ensemble * floor(|X| / nb_trees_per_ensemble)`, which is at
most `|X|` and strictly below it when `|X|` is not divisible — remainder
rows are simply never assigned. -/
theorem c6_amended (p : EParams) (lenX treeIdx : ℕ)
    (hb : p.balance_partition = true)
    (hd : p.nb_trees % p.nb_trees_per_ensemble = 0) :
    numberOfRows p lenX treeIdx = lenX / p.nb_trees_per_ensemble ∧
    p.nb_trees_per_ensemble * (lenX / p.nb_trees_per_ensemble) ≤ lenX := by
  refine ⟨by simp [numberOfRows, hb, hd], ?_⟩
  rw [mul_comm]
  exact Nat.div_mul_le_self lenX p.nb_trees_per_ensemble

/-- Witness for the amended C6 at the counterexample's parameters. -/
theorem c6_amended_witness :
    numberOfRows ep6 5 1 = 5 / ep6.nb_trees_per_ensemble ∧
    ep6.nb_trees_per_ensemble * (5 / ep6.nb_trees_per_ensemble) ≤ 5 :=
  c6_amended ep6 5 1 rfl rfl

/-- C7 counterexample: with an EMPTY accepted tree set, `Predict` does not
degenerate to the initial score — `np.sum` over the empty generator is the
scalar `0` and `len(0)` raises `TypeError` (modelled as `none`). -/
theorem c7_counterexample :
    EnsemblePredict [] [5] [[3]] = none ∧
    (none : Option (List ℚ)) ≠ some [5] :=
  ⟨rfl, by simp⟩

/-- C7 (amended): for a NONEMPTY accepted tree set (and enough initial-score
entries to cover the rows, as in training), `Predict` returns per row
exactly `initial_score + Σ tree predictions`, with no normalization; on the
empty tree set it raises instead of returning the initial score. -/
theorem c7_amended (trees : List DTree) (initScore : List ℚ)
    (X : List (List ℚ)) (hne : trees ≠ [])
    (hlen : X.length ≤ initScore.length) :
    EnsemblePredict trees initScore X
      = some (List.zipWith (fun i0 row =>
          i0 + (trees.map (fun t => TreePredictRow t row)).sum)
          (initScore.take X.length) X) := by
  obtain ⟨t, ts, rfl⟩ := List.exists_cons_of_ne_nil hne
  simp only [EnsemblePredict]
  rw [show TreePredict t X = X.map (TreePredictRow t) from rfl,
    foldl_predictions X ts (TreePredictRow t)]
  have hmaplen :
      (X.map (fun row =>
        TreePredictRow t row
          + (ts.map (fun tr => TreePredictRow tr row)).sum)).length
        = X.length := List.length_map _ _
  rw [npAdd, hmaplen, if_pos]
  · rw [List.zipWith_map_right]
    simp only [List.map_cons, List.sum_cons]
  · rw [List.length_take]
    exact inf_eq_left.2 hlen

/-- Witness for the amended C7: one accepted leaf tree, one row. -/
theorem c7_amended_witness :
    EnsemblePredict [DTree.leaf 2] [10, 20] [[1]]
      = some (List.zipWith (fun i0 row =>
          i0 + (([DTree.leaf 2] : List DTree).map
            (fun t => TreePredictRow t row)).sum)
          (([10, 20] : List ℚ).take ([[1]] : List (List ℚ)).length) [[1]]) :=
  c7_amended [DTree.leaf 2] [10, 20] [[1]] (by simp) (by simp)

/-- C8: `AddLaplacianNoise` reseeds the global stream (`np.random.seed(0)`)
on every call, so its output is INDEPENDENT of the incoming stream state:
two distinct calls with the same leaves and scale reproduce the identical
noise sequence `lap 0 scale, lap 1 scale, ...` — the code does reset the
random source to a fixed state, contradicting the fresh-randomness claim. -/
theorem c8_noise_stream_reset (lap : ℕ → ℚ → ℚ) (leaves : List ℚ)
    (scale : ℚ) (s1 s2 : ℕ) :
    AddLaplacianNoise lap leaves scale s1 = AddLaplacianNoise lap leaves scale s2 ∧
    (AddLaplacianNoise lap leaves scale s1).1 = addNoiseFrom lap scale 0 leaves :=
  ⟨rfl, rfl⟩

/-- C9: prediction-time routing sends a row right exactly when
`row[node.index] >= node.value`, for every node — `TreePredictRow` consults
no categorical index set at all — while fit-time `GetOperators` hands out
equality / inequality for a categorical feature.  Concretely, for
categorical feature 0 split at value 5 a row with value 3 lands in the
RIGHT partition during fitting (`3 ≠ 5`) but is routed to the LEFT child at
prediction time (`¬ 5 ≤ 3`): fit-time partitioning and predict-time routing
disagree on categorical splits. -/
theorem c9_predict_routing :
    (∀ (row : List ℚ) (i : ℕ) (v : ℚ) (l r : DTree),
        TreePredictRow (DTree.node i v l r) row
          = if v ≤ row.getD i 0 then TreePredictRow r row
            else TreePredictRow l row) ∧
    ((GetOperators [0] 0).1 5 5 = true ∧ (GetOperators [0] 0).1 3 5 = false ∧
      (GetOperators [0] 0).2 3 5 = true) ∧
    (GetOperators [] 0).1 3 5 = true ∧
    TreePredictRow (DTree.node 0 5 (DTree.leaf 10) (DTree.leaf 20)) [3] = 10 := by
  refine ⟨fun row i v l r => rfl, ⟨?_, ?_, ?_⟩, ?_, ?_⟩
  · norm_num [GetOperators]
  · norm_num [GetOperators]
  · norm_num [GetOperators]
  · norm_num [GetOperators]
  · norm_num [TreePredictRow]

/-- C10: `Fit`'s post-processing pipeline only reaches truthy leaves: a leaf
whose raw prediction is exactly `0.0` is excluded from the collected leaves
list (first conjunct) and keeps prediction 0 through the whole fitted
tree — no clipping, no Laplace noise, no shrinkage (second conjunct). -/
theorem c10_zero_pred_leaf_untouched (expF : ℚ → Option ℚ) (uni : ℕ → ℚ)
    (lap : ℕ → ℚ → ℚ) (p : TreeParams) (X : List (List ℚ)) (g : List ℚ)
    (rngState : ℕ) (path : List Bool)
    (h : leafAt (MakeTreeDFS expF uni p p.max_depth X g 0).1 path = some 0) :
    (0 : ℚ) ∉ collectLeafPreds (MakeTreeDFS expF uni p p.max_depth X g 0).1 ∧
    leafAt (FitTree expF uni lap p X g rngState) path = some 0 :=
  ⟨zero_not_mem_collectLeafPreds _, by
    simp only [FitTree]
    exact writebackLeaves_zero _ _ path h⟩

/-- Witness for C10: on all-zero gradients the builder's root is a leaf with
raw prediction 0 and the fitted tree still carries prediction 0 there. -/
theorem c10_witness :
    (0 : ℚ) ∉ collectLeafPreds
      (MakeTreeDFS expModel uni0 tp0 tp0.max_depth [[1], [2]] [0, 0] 0).1 ∧
    leafAt (FitTree expModel uni0 lap0 tp0 [[1], [2]] [0, 0] 7) [] = some 0 :=
  c10_zero_pred_leaf_untouched expModel uni0 lap0 tp0 [[1], [2]] [0, 0] 7 []
    (by norm_num [MakeTreeDFS, FindBestSplit, splitCandidates, uniqueValues,
      sortStable, insertStable, column, ComputeGain, GetOperators, maskFilter,
      roundDec7, round_eq, tp0, List.range_succ, ExponentialMechanism,
      GetLeafPrediction, leafAt])

/-- C4: when the candidate tree's validation RMSE fails to beat the cycle's
best (`rmse >= prev_rmse`), `trainStep` rejects it — the appended tree is
popped so the tree list is exactly what it was, the working set
`(X_ensemble, y_ensemble)` is untouched, and the gradient-refresh flag is
cleared so gradients are not refreshed next iteration. -/
theorem c4_rejected_tree_frame (p : EParams) (pr : Prims)
    (rowsOf : ℕ → ℕ → List ℕ) (d : TrainData) (treeIdx : ℕ)
    (s s1 : TrainState) (tree : DTree) (rows selected : List ℕ) (r : ℚ)
    (hprep : trainPrep p pr rowsOf d treeIdx s
      = some (StepPrep.fit s1 tree rows selected))
    (hrmse : candidateRmse pr d (s1.trees ++ [tree]) = some r)
    (hge : s1.prev_rmse ≤ (r : WithTop ℚ)) :
    trainStep p pr rowsOf d treeIdx s
        = some { s1 with update_gradients := false } ∧
    ({ s1 with update_gradients := false } : TrainState).trees = s1.trees ∧
    ({ s1 with update_gradients := false } : TrainState).X_ensemble
        = s1.X_ensemble ∧
    ({ s1 with update_gradients := false } : TrainState).y_ensemble
        = s1.y_ensemble ∧
    ({ s1 with update_gradients := false } : TrainState).update_gradients
        = false := by
  refine ⟨?_, rfl, rfl, rfl, rfl⟩
  unfold trainStep
  rw [hprep]
  simp only [Option.some_bind]
  rw [hrmse, Option.map_some', if_pos hge]

/-- Witness for C4 at a fully concrete training step (`tree_index = 1`): the
refreshed gradients all exceed the clipping threshold, the sampled rows are
filtered away, the fitted tree is a zero leaf, its RMSE 9 is no better than
the recorded best 1, and the step leaves trees, working set and gradients
alone while clearing the refresh flag. -/
theorem c4_witness :
    trainStep ep45 pr45 rows45 data45 1 st4
        = some { st4g with update_gradients := false } ∧
    ({ st4g with update_gradients := false } : TrainState).trees
        = st4g.trees ∧
    ({ st4g with update_gradients := false } : TrainState).X_ensemble
        = st4g.X_ensemble ∧
    ({ st4g with update_gradients := false } : TrainState).y_ensemble
        = st4g.y_ensemble ∧
    ({ st4g with update_gradients := false } : TrainState).update_gradients
        = false :=
  c4_rejected_tree_frame ep45 pr45 rows45 data45 1 st4 st4g (DTree.leaf 0)
    [0, 1] [] 9
    (by norm_num [trainPrep, gradStage, EnsemblePredict, TreePredict,
      TreePredictRow, npAdd, ComputeGradientForLossFunction, numberOfRows,
      ceilDivNat, gbfMask, maskFilter, FitTree, MakeTreeDFS, GetLeafPrediction,
      collectLeafPreds, writebackLeaves, ClipLeaves, AddLaplacianNoise,
      addNoiseFrom, ShrinkLeaves, treeParamsFor, ep45, pr45, rows45, data45,
      st4, st4g, List.range_succ])
    (by norm_num [candidateRmse, EnsemblePredict, TreePredict, TreePredictRow,
      npAdd, meanQ, pr45, data45, st4g, st4])
    (by simp only [st4g, st4]
        exact WithTop.coe_le_coe.2 (by norm_num))

/-- C5 (amended): on acceptance (strictly better RMSE) the rows removed from
the working set are exactly `selected_rows`, which for every tree past the
first is the GBF-FILTERED subset `rows[rows_gbf]` of the originally sampled
rows — NOT the full original sample: rows whose sampled gradient magnitude
exceeds `l2_threshold` stay in the working set (matching the source
comment that GBF-filtered instances remain usable by later trees).  Only
for the first tree (`tree_index = 0`) is the full sample removed. -/
theorem c5_accept_removes_filtered_rows (p : EParams) (pr : Prims)
    (rowsOf : ℕ → ℕ → List ℕ) (d : TrainData) (treeIdx : ℕ)
    (s s1 : TrainState) (tree : DTree) (rows selected : List ℕ) (r : ℚ)
    (hprep : trainPrep p pr rowsOf d treeIdx s
      = some (StepPrep.fit s1 tree rows selected))
    (hpos : 0 < treeIdx)
    (hrmse : candidateRmse pr d (s1.trees ++ [tree]) = some r)
    (hlt : ¬ s1.prev_rmse ≤ (r : WithTop ℚ)) :
    trainStep p pr rowsOf d treeIdx s
        = some { s1 with trees := s1.trees ++ [tree], update_gradients := true,
                         prev_rmse := (r : WithTop ℚ),
                         X_ensemble := npDelete s1.X_ensemble selected,
                         y_ensemble := npDelete s1.y_ensemble selected } ∧
    rows = rowsOf treeIdx (numberOfRows p d.X.length treeIdx) ∧
    selected = maskFilter rows
      (gbfMask (rows.map (fun i => s1.gradients.getD i 0)) p.l2_threshold) := by
  refine ⟨?_, ?_⟩
  · unfold trainStep
    rw [hprep]
    simp only [Option.some_bind]
    rw [hrmse, Option.map_some', if_neg hlt]
  · unfold trainPrep at hprep
    cases hg : gradStage p d treeIdx s with
    | none => rw [hg] at hprep; exact absurd hprep (by simp)
    | some s1' =>
        rw [hg] at hprep
        simp only [Option.map_some', Option.some.injEq] at hprep
        by_cases hn : numberOfRows p d.X.length treeIdx = 0
        · rw [if_pos hn] at hprep
          exact absurd hprep (by simp)
        · rw [if_neg hn] at hprep
          injection hprep with h1 h2 h3 h4
          subst h1
          subst h3
          rw [if_pos hpos] at h4
          exact ⟨rfl, h4.symm⟩

/-- Witness for the amended C5 at a fully concrete accepted step
(`tree_index = 1`): of the sampled rows `[0, 1]`, row 1's gradient `2`
exceeds the threshold 1, so only row 0 is removed from the working set. -/
theorem c5_witness :
    trainStep ep45 pr45 rows45 data45 1 st5
        = some { st5 with trees := st5.trees ++ [DTree.leaf (-5/22)],
                          update_gradients := true,
                          prev_rmse := ((3721/484 : ℚ) : WithTop ℚ),
                          X_ensemble := npDelete st5.X_ensemble [0],
                          y_ensemble := npDelete st5.y_ensemble [0] } ∧
    [0, 1] = rows45 1 (numberOfRows ep45 data45.X.length 1) ∧
    [0] = maskFilter [0, 1]
      (gbfMask (([0, 1] : List ℕ).map (fun i => st5.gradients.getD i 0))
        ep45.l2_threshold) :=
  c5_accept_removes_filtered_rows ep45 pr45 rows45 data45 1 st5 st5
    (DTree.leaf (-5/22)) [0, 1] [0] (3721/484)
    (by norm_num [trainPrep, gradStage, EnsemblePredict, TreePredict,
      TreePredictRow, npAdd, ComputeGradientForLossFunction, numberOfRows,
      ceilDivNat, gbfMask, maskFilter, FitTree, MakeTreeDFS, GetLeafPrediction,
      collectLeafPreds, writebackLeaves, ClipLeaves, AddLaplacianNoise,
      addNoiseFrom, ShrinkLeaves, treeParamsFor, ep45, pr45, rows45, data45,
      st5, List.range_succ, abs_le, lt_abs])
    (by norm_num)
    (by norm_num [candidateRmse, EnsemblePredict, TreePredict, TreePredictRow,
      npAdd, meanQ, pr45, data45, st5])
    (by simp [st5, top_le_iff])

/-- C5 counterexample: at the concrete accepted step above, the rows removed
from the working set are `[0]` (the GBF-filtered sample), not the
originally sampled `[0, 1]`: removing the original sample would leave
`[[3], [4]]`, but the step leaves `[[2], [3], [4]]`. -/
theorem c5_counterexample :
    trainPrep ep45 pr45 rows45 data45 1 st5
        = some (StepPrep.fit st5 (DTree.leaf (-5/22)) [0, 1] [0]) ∧
    trainStep ep45 pr45 rows45 data45 1 st5 = some st5res ∧
    st5res.X_ensemble = [[2], [3], [4]] ∧
    npDelete st5.X_ensemble [0, 1] = [[3], [4]] ∧
    ([[2], [3], [4]] : List (List ℚ)) ≠ [[3], [4]] := by
  refine ⟨?_, ?_, by norm_num [st5res], ?_, by simp⟩
  · norm_num [trainPrep, gradStage, EnsemblePredict, TreePredict,
      TreePredictRow, npAdd, ComputeGradientForLossFunction, numberOfRows,
      ceilDivNat, gbfMask, maskFilter, FitTree, MakeTreeDFS, GetLeafPrediction,
      collectLeafPreds, writebackLeaves, ClipLeaves, AddLaplacianNoise,
      addNoiseFrom, ShrinkLeaves, treeParamsFor, ep45, pr45, rows45, data45,
      st5, List.range_succ, abs_le, lt_abs]
  · norm_num [trainStep, trainPrep, gradStage, EnsemblePredict, TreePredict,
      TreePredictRow, npAdd, ComputeGradientForLossFunction, numberOfRows,
      ceilDivNat, gbfMask, maskFilter, FitTree, MakeTreeDFS, GetLeafPrediction,
      collectLeafPreds, writebackLeaves, ClipLeaves, AddLaplacianNoise,
      addNoiseFrom, ShrinkLeaves, treeParamsFor, candidateRmse, meanQ,
      npDelete, deleteFrom, ep45, pr45, rows45, data45, st5, st5res,
      List.range_succ, top_le_iff, abs_le, lt_abs]
  · norm_num [npDelete, deleteFrom, st5]
